import Mathlib

/-!
Verification development for the moonwalk step-challenge tracker
(src/moonwalk_tracker.py).  The Python source is shallowly embedded:
pure helpers become Lean functions, fallible Python code (statements that
can raise) returns `Except`, and the paginated fetch loop becomes a
recursion over the stream of per-request outcomes.  Step counts are
modelled as naturals; a Python value that can be a number, a string or
None/NaN is modelled by the `PyVal` sum type (None and float NaN behave
identically under pd.isna, so both are `pyNone`).
-/

namespace Moonwalk

/-- Model of a dynamically typed Python value stored in a JSON `steps`
field: an integer count, a string, or None/NaN (both satisfy pd.isna). -/
inductive PyVal
  | pyNone
  | pyInt (n : Nat)
  | pyStr (s : String)
deriving DecidableEq

/-! ### Decimal digits and Python number formatting

`commaFmt` models the Python format expression `f"{int(steps):,}"` used in
`format_steps`: decimal digits grouped in threes from the right with comma
separators.  `natRepr` models `str` on a non-negative int, and
`decimalValue` models `int(...)` applied to a string of decimal digits. -/

/-- The decimal digit character for `d` (`d < 10`; larger values are
clamped, they never occur since arguments are always `n % 10`). -/
def digitChar (d : Nat) : Char :=
  match d with
  | 0 => '0' | 1 => '1' | 2 => '2' | 3 => '3' | 4 => '4'
  | 5 => '5' | 6 => '6' | 7 => '7' | 8 => '8' | _ => '9'

/-- Little-endian decimal digits of `n`, with explicit fuel so the
definition is structural (the fuel is decremented once per digit and
`n` itself is always enough fuel). -/
def natDigitsLEAux : Nat → Nat → List Char
  | _, 0 => []
  | n, fuel + 1 => if n = 0 then [] else digitChar (n % 10) :: natDigitsLEAux (n / 10) fuel

/-- Little-endian decimal digits of `n` (empty for 0). -/
def natDigitsLE (n : Nat) : List Char := natDigitsLEAux n n

/-- Model of Python `str` on a non-negative integer. -/
def natRepr (n : Nat) : String :=
  if n = 0 then "0" else ⟨(natDigitsLE n).reverse⟩

/-- Insert a comma before the digit at little-endian position `k` whenever
`k` is a positive multiple of 3 (digit grouping of Python's `:,` format,
seen from the little end). -/
def insertCommasLE : List Char → Nat → List Char
  | [], _ => []
  | c :: cs, k =>
    if k ≠ 0 ∧ k % 3 = 0 then ',' :: c :: insertCommasLE cs (k + 1)
    else c :: insertCommasLE cs (k + 1)

/-- Model of the Python format expression `f"{int(steps):,}"`:
thousands-separated decimal representation. -/
def commaFmt (n : Nat) : String :=
  if n = 0 then "0" else ⟨(insertCommasLE (natDigitsLE n) 0).reverse⟩

/-- Model of Python `int(...)` on a string of decimal digits (the only
strings the tracker ever converts back). -/
def decimalValue (s : String) : Nat :=
  s.data.foldl (fun a c => a * 10 + (c.toNat - 48)) 0

/-! ### Python string helpers: `replace`, `in`, `<=`, `split('T')[0]` -/

/-- Model of Python `str.replace`, on character lists.  Scans left to
right; on a match of `pat` the replacement is emitted and the skip counter
silently consumes the rest of the matched pattern.  (The tracker never
calls `replace` with an empty pattern; for safety the empty pattern is a
no-op here.) -/
def replaceGo (pat repl : List Char) : List Char → Nat → List Char
  | [], _ => []
  | _ :: cs, k + 1 => replaceGo pat repl cs k
  | c :: cs, 0 =>
    if pat.isPrefixOf (c :: cs) && !pat.isEmpty then
      repl ++ replaceGo pat repl cs (pat.length - 1)
    else
      c :: replaceGo pat repl cs 0

/-- Model of Python `s.replace(pat, repl)`. -/
def pyReplace (s pat repl : String) : String :=
  ⟨replaceGo pat.data repl.data s.data 0⟩

/-- Model of Python `pat in s` (substring containment), on lists. -/
def listContainsSub (pat : List Char) : List Char → Bool
  | [] => false
  | c :: cs => pat.isPrefixOf (c :: cs) || listContainsSub pat cs

/-- Model of the check `'k+' in steps` in `format_steps`. -/
def hasKPlus (s : String) : Bool := listContainsSub ['k', '+'] s.data

/-- Lexicographic comparison of character lists by code point, the
semantics of Python string `<=`. -/
def listLe : List Char → List Char → Bool
  | [], _ => true
  | _ :: _, [] => false
  | a :: as, b :: bs => if a = b then listLe as bs else decide (a < b)

/-- Model of Python string `<=` (used for date comparison in
`check_task_completion`). -/
def pyStrLe (a b : String) : Bool := listLe a.data b.data

/-- Model of `day.split('T')[0] if 'T' in day else day`. -/
def stripT (d : String) : String :=
  if d.data.contains 'T' then ⟨d.data.takeWhile (fun c => !(c == 'T'))⟩ else d

/-! ### format_steps (lines 113-121)

    def format_steps(steps):
        if isinstance(steps, str) and 'k+' in steps: return steps
        if pd.isna(steps) or steps == 0: return '-'
        if steps >= 30000: return '30k+'
        return f"{int(steps):,}"

A string without `'k+'` falls through to `steps >= 30000`, which raises
TypeError in Python (str vs int); that is the `.error` case.  `pd.isna`
is True exactly for None/NaN (`pyNone`), and `steps == 0` can only hold
for the integer 0 (Python `==` across types is False without error). -/

/-- Embedding of `format_steps`.  `.error ()` models a raised TypeError. -/
def format_steps (steps : PyVal) : Except Unit String :=
  match steps with
  | .pyStr s => if hasKPlus s then .ok s else .error ()
  | .pyNone => .ok "-"
  | .pyInt n =>
    if n = 0 then .ok "-"
    else if 30000 ≤ n then .ok "30k+"
    else .ok (commaFmt n)

/-! ### check_task_completion (lines 183-200)

    completed_days = 0; required_days = 0
    for step in steps_data:
        step_date = step['day'].split('T')[0] if 'T' in step['day'] else step['day']
        if step_date <= current_date:
            required_days += 1
            if step.get('steps', 0) >= step_target: completed_days += 1
    if required_days == 0: return '-'
    elif completed_days == required_days: return 'Complete'
    else: return f'Failed({completed_days}/{required_days})'
-/

/-- One per-day record as consumed by `check_task_completion`: a day
string and a numeric step count (the caller always supplies an int). -/
structure StepRec where
  day : String
  steps : Nat
deriving DecidableEq

/-- The counter loop of `check_task_completion`; the accumulator is
`(completed_days, required_days)`. -/
def checkLoop (steps_data : List StepRec) (step_target : Nat) (current_date : String) :
    Nat × Nat :=
  steps_data.foldl
    (fun acc step =>
      if pyStrLe (stripT step.day) current_date then
        if step_target ≤ step.steps then (acc.1 + 1, acc.2 + 1)
        else (acc.1, acc.2 + 1)
      else acc)
    (0, 0)

/-- Embedding of `check_task_completion` (returns the status string the
Python function returns). -/
def check_task_completion (steps_data : List StepRec) (step_target : Nat)
    (current_date : String) : String :=
  let cr := checkLoop steps_data step_target current_date
  if cr.2 = 0 then "-"
  else if cr.1 = cr.2 then "Complete"
  else "Failed(" ++ natRepr cr.1 ++ "/" ++ natRepr cr.2 ++ ")"

/-- `required_days`: the number of records whose (T-stripped) day is at or
before the evaluation date. -/
def requiredDays (steps_data : List StepRec) (current_date : String) : Nat :=
  steps_data.countP (fun step => pyStrLe (stripT step.day) current_date)

/-- `completed_days`: among the required records, those whose step count
meets the target. -/
def completedDays (steps_data : List StepRec) (step_target : Nat)
    (current_date : String) : Nat :=
  steps_data.countP
    (fun step => pyStrLe (stripT step.day) current_date && decide (step_target ≤ step.steps))

/-- The spec's CompletionStatus data type.  `Incomplete c r` is the spec's
Partial(completedDays, requiredDays). -/
inductive CompletionStatus
  | NotYetDue
  | Complete
  | Incomplete (completed required : Nat)
deriving DecidableEq

/-- How each CompletionStatus is rendered by the code:
NotYetDue is the dash, Partial is the `Failed(c/r)` string. -/
def statusString : CompletionStatus → String
  | .NotYetDue => "-"
  | .Complete => "Complete"
  | .Incomplete c r => "Failed(" ++ natRepr c ++ "/" ++ natRepr r ++ ")"

/-- Abstract view of the branch structure of `check_task_completion`. -/
def statusView (steps_data : List StepRec) (step_target : Nat)
    (current_date : String) : CompletionStatus :=
  let cr := checkLoop steps_data step_target current_date
  if cr.2 = 0 then .NotYetDue
  else if cr.1 = cr.2 then .Complete
  else .Incomplete cr.1 cr.2

/-! ### The display-side step parsing (lines 268-282 of display_results)

    steps = user_data['steps']
    while len(steps) < len(game_dates): steps.append('-')
    ...
    [{'day': date,
      'steps': int(steps[i].replace(',', '').replace('k+', '30000').replace('-', '0'))
               if i < len(steps) and steps[i] != '-' else 0}
     for i, date in enumerate(game_dates)]
-/

/-- The replace-based conversion applied to one display string before
`int(...)`: strip commas, map the overflow marker text, map dashes. -/
def parseDisplay (s : String) : Nat :=
  decimalValue (pyReplace (pyReplace (pyReplace s "," "") "k+" "30000") "-" "0")

/-- The `while len(steps) < len(game_dates): steps.append('-')` padding. -/
def padSteps (steps : List String) (numDates : Nat) : List String :=
  steps ++ List.replicate (numDates - steps.length) "-"

/-- The list comprehension that rebuilds `check_task_completion` input
from display strings, one record per campaign date. -/
def parsedEntries (steps : List String) (game_dates : List String) : List StepRec :=
  game_dates.enum.map
    (fun p =>
      ⟨p.2,
        if p.1 < steps.length ∧ steps.getD p.1 "" ≠ "-" then parseDisplay (steps.getD p.1 "")
        else 0⟩)

/-- The full completion evaluation as `display_results` performs it: pad
the display series, reverse-parse each display string, then call
`check_task_completion`. -/
def displayCompletion (steps : List String) (game_dates : List String)
    (step_target : Nat) (current_date : String) : String :=
  check_task_completion (parsedEntries (padSteps steps game_dates.length) game_dates)
    step_target current_date

/-! ### The spec's normalized StepValue and comparable counts -/

/-- The spec's normalized step value (data model section of the spec). -/
inductive StepValue
  | Missing
  | Capped
  | Numeric (n : Nat)
deriving DecidableEq

/-- The display string each StepValue is rendered to by `format_steps`:
`Numeric n` is the comma-formatted numeral, `Capped` the overflow marker,
`Missing` the dash. -/
def stepDisplay : StepValue → String
  | .Missing => "-"
  | .Capped => "30k+"
  | .Numeric n => commaFmt n

/-- Modelled from the spec: the comparable count the claim asserts,
`Numeric n ↦ n`, `Capped ↦ 30000` (the cap threshold), `Missing ↦ 0`. -/
def specComparable : StepValue → Nat
  | .Missing => 0
  | .Capped => 30000
  | .Numeric n => n

/-- The comparable count the code actually computes for each StepValue
after the display round trip (`'30k+'` parses to 3030000, because
`.replace('k+', '30000')` turns `'30k+'` into `'3030000'`). -/
def codeComparable : StepValue → Nat
  | .Missing => 0
  | .Capped => 3030000
  | .Numeric n => n

/-! ### process_player_data (lines 79-111)

Per player: extract `player.get('user', {}).get('name', '')`, skip if
empty; format each step value; `total_completed` counts raw values > 0
(a comparison that raises TypeError on a string or None value, caught by
the surrounding try/except, which skips the player);
`highest_steps = max((s.get('steps', 0) for s in steps_data), default=0)`.
-/

/-- A raw per-day step entry as fetched: day plus the optional dynamic
`steps` field (`none` when the key is absent). -/
structure StepEntry where
  day : String
  steps : Option PyVal
deriving DecidableEq

/-- The nested `user` object (`name` may be absent). -/
structure UserInfo where
  name : Option String
deriving DecidableEq

/-- A raw player record (`user` may be absent). -/
structure Player where
  user : Option UserInfo
  steps : List StepEntry
deriving DecidableEq

/-- `player.get('user', {}).get('name', '')`. -/
def usernameOf (p : Player) : String := ((p.user.getD ⟨none⟩).name.getD "")

/-- The aggregated per-player value stored in `all_players_data`. -/
structure AggEntry where
  steps : List String
  total_completed : Nat
  highest_steps : Nat
deriving DecidableEq

/-- The effective raw values `s.get('steps', 0)` of a player's entries. -/
def rawVals (p : Player) : List PyVal :=
  p.steps.map (fun e => e.steps.getD (.pyInt 0))

/-- The running sum of `sum(1 for s in steps_data if s.get('steps', 0) > 0)`;
comparing a string or None against 0 raises TypeError, modelled as `.error`. -/
def totalCompletedAux (a : Nat) : List PyVal → Except Unit Nat
  | [] => .ok a
  | .pyInt n :: vs => totalCompletedAux (if 0 < n then a + 1 else a) vs
  | _ :: _ => .error ()

/-- `sum(1 for s in steps_data if s.get('steps', 0) > 0)`. -/
def totalCompleted (vals : List PyVal) : Except Unit Nat := totalCompletedAux 0 vals

/-- The running maximum of
`max((s.get('steps', 0) for s in steps_data), default=0)`.  A non-int
value makes the comparison against the running int maximum raise,
modelled as `.error` (by the time `max` runs, a string or None value has
already raised in the `total_completed` sum). -/
def pyMaxAux (a : Nat) : List PyVal → Except Unit Nat
  | [] => .ok a
  | .pyInt n :: vs => pyMaxAux (Nat.max a n) vs
  | _ :: _ => .error ()

/-- `max((s.get('steps', 0) for s in steps_data), default=0)`. -/
def pyMaxNat (vals : List PyVal) : Except Unit Nat := pyMaxAux 0 vals

/-- Processing of one player's data inside the try block: the formatted
list, then `total_completed`, then `highest_steps`, any raised TypeError
aborting the record (and only the record). -/
def processPlayer (p : Player) : Except Unit AggEntry :=
  match (rawVals p).mapM format_steps with
  | .error e => .error e
  | .ok fs =>
    match totalCompleted (rawVals p) with
    | .error e => .error e
    | .ok tc =>
      match pyMaxNat (rawVals p) with
      | .error e => .error e
      | .ok hs => .ok ⟨fs, tc, hs⟩

/-- Python dict assignment `d[k] = v`: overwrite in place if the key
exists (keeping its position), append otherwise. -/
def dictInsert (d : List (String × AggEntry)) (k : String) (v : AggEntry) :
    List (String × AggEntry) :=
  if d.any (fun q => q.1 == k) then d.map (fun q => if q.1 == k then (k, v) else q)
  else d ++ [(k, v)]

/-- One iteration of the player loop: skip on missing username, skip on a
caught exception, otherwise insert into the dict. -/
def processStep (acc : List (String × AggEntry)) (p : Player) :
    List (String × AggEntry) :=
  if usernameOf p = "" then acc
  else
    match processPlayer p with
    | .ok e => dictInsert acc (usernameOf p) e
    | .error _ => acc

/-- Embedding of `process_player_data`: the resulting username-keyed dict
as an insertion-ordered association list. -/
def process_player_data (players : List Player) : List (String × AggEntry) :=
  players.foldl processStep []

/-- The numeric values among a list of raw values. -/
def intVals (vals : List PyVal) : List Nat :=
  vals.filterMap (fun v => match v with | .pyInt n => some n | _ => none)

/-- Modelled from the spec: `highestSteps` = max over the values the
claim keeps (Numeric range only, ignoring Missing and Capped), default 0. -/
def specHighest (vals : List PyVal) : Nat :=
  (intVals vals).foldl (fun a n => if 0 < n ∧ n < 30000 then Nat.max a n else a) 0

/-! ### get_all_game_data (lines 36-77)

The loop issues one request per iteration; `none` models a failed (or
falsy) response, `some players` the `val` list of a successful one.  The
embedding recurses over the stream of per-request outcomes and returns
the accumulated players, the trace of requests as (offset, success)
pairs, and whether the loop exited by itself (`false` only when the
outcome stream ran out, a model artifact). -/

/-- The fetch loop.  Arguments: remaining request outcomes, `skip`,
`retry_count`, `all_players` so far, request trace so far. -/
def fetchGo {α : Type} :
    List (Option (List α)) → Nat → Nat → List α → List (Nat × Bool) →
      List α × List (Nat × Bool) × Bool
  | [], _, _, acc, trace => (acc, trace, false)
  | r :: rs, skip, retry, acc, trace =>
    match r with
    | none =>
      if retry < 3 then fetchGo rs skip (retry + 1) acc (trace ++ [(skip, false)])
      else (acc, trace ++ [(skip, false)], true)
    | some players =>
      if players.length = 0 then (acc, trace ++ [(skip, true)], true)
      else if players.length < 20 then (acc ++ players, trace ++ [(skip, true)], true)
      else fetchGo rs (skip + 20) 0 (acc ++ players) (trace ++ [(skip, true)])

/-- Embedding of `get_all_game_data`: start at offset 0 with a fresh
retry counter and no accumulated players. -/
def get_all_game_data {α : Type} (responses : List (Option (List α))) :
    List α × List (Nat × Bool) × Bool :=
  fetchGo responses 0 0 [] []

/-- The paginated server holding the record list `l`: the page at offset
`skip` is `l[skip : skip + 20]`.  `serverResponses l m` is the outcome
stream of the first `m` requests of a failure-free run (request `k` is at
offset `20 * k`, since every full page advances the offset by 20). -/
def serverResponses {α : Type} (l : List α) (m : Nat) : List (Option (List α)) :=
  (List.range m).map (fun k => some ((l.drop (20 * k)).take 20))

/-! ### main (lines 345-398) and the export decision of display_results

`main` prints a message and plain-returns (process exit status 0) on a
missing required input; only the argument-count check calls
`sys.exit(1)`.  The model records the exit status, whether `save_to_csv`
was reached, and the error message printed by the aborting branch. -/

/-- Campaign metadata as built by `get_game_overview`. -/
structure GameInfo where
  game_code : String
  game_name : String
  deposit_amount : Nat
  token_symbol : String
  start_date : String
  end_date : String
  step_target : Nat
  total_players : Nat
  game_link : String
deriving DecidableEq

/-- The external inputs one run of `main` consumes: `sys.argv`, the
roster as returned by `get_usernames_from_csv` (empty list both for an
empty file and for a read error, which the function turns into `{}`),
the overview response, the initial page response (`none` for a failed or
falsy response), and the outcome stream for `get_all_game_data`. -/
structure MainEnv where
  argv : List String
  roster : List (String × Nat)
  overview : Option GameInfo
  initialData : Option (List Player)
  pageResponses : List (Option (List Player))
deriving DecidableEq

/-- The observable outcome of a run: process exit status, whether the
CSV export was written, and the error message of an aborting branch. -/
structure MainResult where
  exitCode : Nat
  exported : Bool
  messages : List String
deriving DecidableEq

/-- `game_dates` extraction: the days of the first player of the initial
page (empty when the page has no players). -/
def gameDatesOf (initList : List Player) : List String :=
  match initList with
  | [] => []
  | p :: _ => p.steps.map (fun s => s.day)

/-- Whether `display_results` reaches `save_to_csv`: it returns early
only when no roster user occurs among the processed players. -/
def displayExports (player_data : List (String × AggEntry))
    (roster : List (String × Nat)) : Bool :=
  roster.any (fun r => player_data.any (fun q => q.1 == r.1))

/-- Embedding of `main`'s control flow. -/
def mainRun (env : MainEnv) : MainResult :=
  if env.argv.length ≠ 2 then ⟨1, false, ["Usage: python moonwalk_tracker.py <game_code>"]⟩
  else if env.roster.isEmpty then
    ⟨0, false, ["Failed to read user information from CSV file"]⟩
  else
    match env.overview with
    | none => ⟨0, false, ["Failed to get game overview"]⟩
    | some _ =>
      match env.initialData with
      | none => ⟨0, false, ["Failed to get player data"]⟩
      | some initList =>
        if (gameDatesOf initList).isEmpty then ⟨0, false, ["Failed to get game dates"]⟩
        else
          let all_players := (get_all_game_data env.pageResponses).1
          if all_players.isEmpty then ⟨0, false, ["No player data found"]⟩
          else
            let player_data := process_player_data all_players
            if player_data.isEmpty then ⟨0, false, ["Error processing data"]⟩
            else ⟨0, displayExports player_data env.roster, []⟩

/-! ### Concrete inputs used by counterexamples and witnesses -/

/-- A player whose single raw step value is the numeric 35000 (which
normalizes to Capped). -/
def cappedPlayer : Player :=
  ⟨some ⟨some "alice"⟩, [⟨"2024-01-01", some (.pyInt 35000)⟩]⟩

/-- Record `i` of the 100-record batch: record index 56 (the 57th) has no
username, all others have the distinct username `u<i>`. -/
def mkPlayer (i : Nat) : Player :=
  if i = 56 then ⟨none, []⟩ else ⟨some ⟨some ("u" ++ natRepr i)⟩, []⟩

/-- A batch of 100 records whose 57th record has no username. -/
def batch100 : List Player := (List.range 100).map mkPlayer

/-- A run environment whose roster read came back empty. -/
def envEmptyRoster : MainEnv :=
  ⟨["moonwalk_tracker.py", "GAME"], [], none, none, []⟩

/-! ## Helper lemmas: decimal digits and the display round trip -/

theorem natDigitsLEAux_irrel :
    ∀ (f1 f2 n : Nat), n ≤ f1 → n ≤ f2 → natDigitsLEAux n f1 = natDigitsLEAux n f2 := by
  intro f1
  induction f1 with
  | zero =>
    intro f2 n h1 h2
    have hn : n = 0 := by omega
    subst hn
    cases f2 <;> simp [natDigitsLEAux]
  | succ f ih =>
    intro f2 n h1 h2
    by_cases hn : n = 0
    · subst hn; cases f2 <;> simp [natDigitsLEAux]
    · have hdiv : n / 10 < n := Nat.div_lt_self (by omega) (by omega)
      cases f2 with
      | zero => omega
      | succ g =>
        simp only [natDigitsLEAux, hn, if_false]
        exact congrArg _ (ih g (n / 10) (by omega) (by omega))

theorem natDigitsLE_def (n : Nat) :
    natDigitsLE n = if n = 0 then [] else digitChar (n % 10) :: natDigitsLE (n / 10) := by
  by_cases hn : n = 0
  · subst hn; simp [natDigitsLE, natDigitsLEAux]
  · obtain ⟨m, rfl⟩ : ∃ m, n = m + 1 := ⟨n - 1, by omega⟩
    have hdiv : (m + 1) / 10 < m + 1 := Nat.div_lt_self (by omega) (by omega)
    simp only [natDigitsLE, natDigitsLEAux, hn, if_false]
    exact congrArg _ (natDigitsLEAux_irrel m ((m + 1) / 10) ((m + 1) / 10) (by omega) le_rfl)

theorem mem_natDigitsLE {c : Char} :
    ∀ n : Nat, c ∈ natDigitsLE n → ∃ d, d < 10 ∧ c = digitChar d := by
  intro n
  induction n using Nat.strong_induction_on with
  | _ n ih =>
    intro hc
    rw [natDigitsLE_def] at hc
    by_cases hn : n = 0
    · simp [hn] at hc
    · simp only [hn, if_false, List.mem_cons] at hc
      rcases hc with hc | hc
      · exact ⟨n % 10, Nat.mod_lt _ (by omega), hc⟩
      · exact ih (n / 10) (Nat.div_lt_self (by omega) (by omega)) hc

theorem digitChar_nine (d : Nat) : digitChar (d + 9) = '9' := rfl

theorem digitChar_toNat {d : Nat} (h : d < 10) : (digitChar d).toNat = 48 + d := by
  interval_cases d <;> rfl

theorem digitChar_bounds (d : Nat) :
    48 ≤ (digitChar d).toNat ∧ (digitChar d).toNat ≤ 57 := by
  rcases Nat.lt_or_ge d 9 with h | h
  · interval_cases d <;> exact ⟨by decide, by decide⟩
  · obtain ⟨e, rfl⟩ : ∃ e, d = e + 9 := ⟨d - 9, by omega⟩
    rw [digitChar_nine]
    exact ⟨by decide, by decide⟩

theorem digitChar_not_special {c : Char} (h : ∃ d, c = digitChar d) :
    ¬c = ',' ∧ ¬c = 'k' ∧ ¬c = '-' := by
  obtain ⟨d, rfl⟩ := h
  have hb := digitChar_bounds d
  refine ⟨fun hEq => ?_, fun hEq => ?_, fun hEq => ?_⟩ <;>
    (rw [hEq] at hb; revert hb; decide)

theorem decimalFold (n : Nat) :
    ∀ a : Nat,
      ((natDigitsLE n).reverse).foldl (fun x c => x * 10 + (c.toNat - 48)) a
        = a * 10 ^ (natDigitsLE n).length + n := by
  induction n using Nat.strong_induction_on with
  | _ n ih =>
    intro a
    rw [natDigitsLE_def]
    by_cases hn : n = 0
    · simp [hn]
    · simp only [hn, if_false, List.reverse_cons, List.foldl_append, List.foldl_cons,
        List.foldl_nil, List.length_cons]
      rw [ih (n / 10) (Nat.div_lt_self (by omega) (by omega)) a]
      rw [digitChar_toNat (Nat.mod_lt _ (by omega))]
      have hsub : 48 + n % 10 - 48 = n % 10 := by omega
      rw [hsub, pow_succ]
      generalize (10 : Nat) ^ (natDigitsLE (n / 10)).length = q
      have hassoc : a * (q * 10) = a * q * 10 := by ring
      rw [hassoc]
      generalize a * q = A
      omega

theorem decimalValue_natRepr (n : Nat) : decimalValue (natRepr n) = n := by
  by_cases hn : n = 0
  · subst hn; decide
  · simp only [natRepr, hn, if_false, decimalValue]
    rw [decimalFold n 0]
    simp

theorem replaceGo_single (a : Char) :
    ∀ l : List Char, replaceGo [a] [] l 0 = l.filter (fun c => !(c == a)) := by
  intro l
  induction l with
  | nil => rfl
  | cons c cs ih =>
    by_cases h : a = c
    · subst h
      simp [replaceGo, List.isPrefixOf, ih]
    · have hba : (a == c) = false := beq_eq_false_iff_ne.mpr h
      have hbc : (c == a) = false := beq_eq_false_iff_ne.mpr (Ne.symm h)
      simp [replaceGo, List.isPrefixOf, hba, hbc, ih]

theorem replaceGo_not_head (p : Char) (ps repl : List Char) :
    ∀ l : List Char, (∀ c ∈ l, ¬c = p) → replaceGo (p :: ps) repl l 0 = l := by
  intro l
  induction l with
  | nil => intro _; rfl
  | cons c cs ih =>
    intro h
    have hc : ¬c = p := h c (List.mem_cons_self c cs)
    have hb : (p == c) = false := beq_eq_false_iff_ne.mpr (Ne.symm hc)
    simp [replaceGo, List.isPrefixOf, hb,
      ih (fun c hm => h c (List.mem_cons_of_mem _ hm))]

theorem mem_insertCommasLE {c : Char} :
    ∀ (ds : List Char) (k : Nat), c ∈ insertCommasLE ds k → c ∈ ds ∨ c = ',' := by
  intro ds
  induction ds with
  | nil => intro k h; simp [insertCommasLE] at h
  | cons d ds ih =>
    intro k h
    simp only [insertCommasLE] at h
    split at h <;> simp only [List.mem_cons] at h <;>
      rcases h with h | h
    · right; exact h
    · rcases h with h | h
      · left; simp [h]
      · rcases ih (k + 1) h with hm | hm
        · left; exact List.mem_cons_of_mem _ hm
        · right; exact hm
    · left; simp [h]
    · rcases ih (k + 1) h with hm | hm
      · left; exact List.mem_cons_of_mem _ hm
      · right; exact hm

theorem filter_insertCommasLE :
    ∀ (ds : List Char) (k : Nat), (∀ c ∈ ds, ¬c = ',') →
      (insertCommasLE ds k).filter (fun c => !(c == ',')) = ds := by
  intro ds
  induction ds with
  | nil => intro k _; rfl
  | cons d ds ih =>
    intro k h
    have hd : ¬d = ',' := h d (List.mem_cons_self d ds)
    have hb : (d == ',') = false := by simp [hd]
    have htl := ih (k + 1) (fun c hm => h c (List.mem_cons_of_mem _ hm))
    simp only [insertCommasLE]
    split
    · simp [List.filter_cons, hb, htl]
    · simp [List.filter_cons, hb, htl]

theorem natRepr_digits {c : Char} {n : Nat} (h : c ∈ (natRepr n).data) :
    ∃ d, c = digitChar d := by
  by_cases hn : n = 0
  · subst hn
    simp only [natRepr, if_pos rfl] at h
    have : c = '0' := by simpa using h
    exact ⟨0, this⟩
  · simp only [natRepr, hn, if_false] at h
    have hm : c ∈ natDigitsLE n := by simpa using h
    obtain ⟨d, _, hd⟩ := mem_natDigitsLE n hm
    exact ⟨d, hd⟩

theorem pyReplace_comma_commaFmt (n : Nat) : pyReplace (commaFmt n) "," "" = natRepr n := by
  by_cases hn : n = 0
  · subst hn; decide
  · have hdig : ∀ c ∈ natDigitsLE n, ¬c = ',' := by
      intro c hc
      obtain ⟨d, _, hd⟩ := mem_natDigitsLE n hc
      exact (digitChar_not_special ⟨d, hd⟩).1
    show (⟨replaceGo [','] [] (commaFmt n).data 0⟩ : String) = natRepr n
    rw [show (commaFmt n).data = (insertCommasLE (natDigitsLE n) 0).reverse by
      simp [commaFmt, hn]]
    rw [replaceGo_single]
    rw [List.filter_reverse]
    rw [filter_insertCommasLE (natDigitsLE n) 0 hdig]
    simp [natRepr, hn]

theorem pyReplace_no_head (s : String) (p : Char) (pt repl : String)
    (hp : pt.data = p :: (pt.data.drop 1)) (h : ∀ c ∈ s.data, ¬c = p) :
    pyReplace s pt repl = s := by
  show (⟨replaceGo pt.data repl.data s.data 0⟩ : String) = s
  rw [hp, replaceGo_not_head p _ _ s.data h]

theorem parseDisplay_commaFmt (n : Nat) : parseDisplay (commaFmt n) = n := by
  have hdig : ∀ c ∈ (natRepr n).data, ∃ d, c = digitChar d := fun c hc => natRepr_digits hc
  unfold parseDisplay
  rw [pyReplace_comma_commaFmt]
  rw [pyReplace_no_head (natRepr n) 'k' "k+" "30000" rfl
    (fun c hc => (digitChar_not_special (hdig c hc)).2.1)]
  rw [pyReplace_no_head (natRepr n) '-' "-" "0" rfl
    (fun c hc => (digitChar_not_special (hdig c hc)).2.2)]
  exact decimalValue_natRepr n

theorem commaFmt_ne_dash (n : Nat) : ¬commaFmt n = "-" := by
  by_cases hn : n = 0
  · subst hn; decide
  · intro h
    have hdata : (insertCommasLE (natDigitsLE n) 0).reverse = ['-'] := by
      have := congrArg String.data h
      simpa [commaFmt, hn] using this
    have hmem : '-' ∈ (insertCommasLE (natDigitsLE n) 0).reverse := by
      rw [hdata]; exact List.mem_singleton.mpr rfl
    rw [List.mem_reverse] at hmem
    rcases mem_insertCommasLE _ 0 hmem with hm | hm
    · obtain ⟨d, _, hd⟩ := mem_natDigitsLE n hm
      exact (digitChar_not_special ⟨d, hd⟩).2.2 rfl
    · exact absurd hm (by decide)

/-! ## Helper lemmas: the completion counters -/

theorem checkLoop_from (steps_data : List StepRec) (step_target : Nat)
    (current_date : String) :
    ∀ a b : Nat,
      steps_data.foldl
        (fun acc step =>
          if pyStrLe (stripT step.day) current_date then
            if step_target ≤ step.steps then (acc.1 + 1, acc.2 + 1)
            else (acc.1, acc.2 + 1)
          else acc)
        (a, b)
      = (a + completedDays steps_data step_target current_date,
         b + requiredDays steps_data current_date) := by
  induction steps_data with
  | nil => intro a b; simp [completedDays, requiredDays]
  | cons s l ih =>
    intro a b
    simp only [List.foldl_cons]
    by_cases h1 : pyStrLe (stripT s.day) current_date
    · by_cases h2 : step_target ≤ s.steps
      · rw [if_pos h1, if_pos h2, ih (a + 1) (b + 1)]
        have hc : completedDays (s :: l) step_target current_date
            = completedDays l step_target current_date + 1 := by
          simp [completedDays, List.countP_cons, h1, h2]
        have hr : requiredDays (s :: l) current_date
            = requiredDays l current_date + 1 := by
          simp [requiredDays, List.countP_cons, h1]
        rw [hc, hr]
        simp only [Prod.mk.injEq]
        omega
      · rw [if_pos h1, if_neg h2, ih a (b + 1)]
        have hc : completedDays (s :: l) step_target current_date
            = completedDays l step_target current_date := by
          simp [completedDays, List.countP_cons, h2]
        have hr : requiredDays (s :: l) current_date
            = requiredDays l current_date + 1 := by
          simp [requiredDays, List.countP_cons, h1]
        rw [hc, hr]
        simp only [Prod.mk.injEq]
        exact ⟨trivial, by omega⟩
    · have h1b : pyStrLe (stripT s.day) current_date = false := by
        revert h1; cases pyStrLe (stripT s.day) current_date <;> simp
      rw [if_neg h1, ih a b]
      have hc : completedDays (s :: l) step_target current_date
          = completedDays l step_target current_date := by
        simp [completedDays, List.countP_cons, h1b]
      have hr : requiredDays (s :: l) current_date = requiredDays l current_date := by
        simp [requiredDays, List.countP_cons, h1b]
      rw [hc, hr]

theorem checkLoop_eq (steps_data : List StepRec) (step_target : Nat)
    (current_date : String) :
    checkLoop steps_data step_target current_date
      = (completedDays steps_data step_target current_date,
         requiredDays steps_data current_date) := by
  have h := checkLoop_from steps_data step_target current_date 0 0
  simpa [checkLoop] using h

theorem completed_le_required (steps_data : List StepRec) (step_target : Nat)
    (current_date : String) :
    completedDays steps_data step_target current_date
      ≤ requiredDays steps_data current_date := by
  unfold completedDays requiredDays
  apply List.countP_mono_left
  intro s _ h
  exact (Bool.and_eq_true _ _ |>.mp h).1

theorem check_eq_statusView (steps_data : List StepRec) (step_target : Nat)
    (current_date : String) :
    check_task_completion steps_data step_target current_date
      = statusString (statusView steps_data step_target current_date) := by
  by_cases h0 : (checkLoop steps_data step_target current_date).2 = 0
  · simp [check_task_completion, statusView, statusString, h0]
  · by_cases h1 :
      (checkLoop steps_data step_target current_date).1
        = (checkLoop steps_data step_target current_date).2
    · simp [check_task_completion, statusView, statusString, h0, h1]
    · simp [check_task_completion, statusView, statusString, h0, h1]

/-! ## Helper lemmas: the display round trip inside display_results -/

theorem parseDisplay_capped : parseDisplay "30k+" = 3030000 := by decide

theorem parsedVal (series : List StepValue) (dl i : Nat) :
    (if i < (padSteps (series.map stepDisplay) dl).length ∧
          (padSteps (series.map stepDisplay) dl).getD i "" ≠ "-" then
        parseDisplay ((padSteps (series.map stepDisplay) dl).getD i "")
      else 0)
      = codeComparable (series.getD i .Missing) := by
  have hlen : (padSteps (series.map stepDisplay) dl).length
      = series.length + (dl - series.length) := by
    simp [padSteps]
  by_cases hi : i < series.length
  · have him : i < (series.map stepDisplay).length := by simpa using hi
    have hget : (padSteps (series.map stepDisplay) dl).getD i ""
        = stepDisplay (series.get ⟨i, hi⟩) := by
      unfold padSteps
      rw [List.getD_append _ _ _ _ him]
      rw [List.getD_eq_getElem _ _ him]
      simp
    have hgetd : series.getD i .Missing = series.get ⟨i, hi⟩ := by
      rw [List.getD_eq_getElem _ _ hi]
      simp
    rw [hget, hgetd]
    cases hv : series.get ⟨i, hi⟩ with
    | Missing =>
      simp [stepDisplay, codeComparable]
    | Capped =>
      rw [if_pos ⟨by omega, by simp [stepDisplay]⟩]
      exact parseDisplay_capped
    | Numeric n =>
      rw [if_pos ⟨by omega, by simp [stepDisplay]; exact commaFmt_ne_dash n⟩]
      exact parseDisplay_commaFmt n
  · have hdef : series.getD i .Missing = .Missing :=
      List.getD_eq_default _ _ (by omega)
    rw [hdef]
    by_cases hip : i < (padSteps (series.map stepDisplay) dl).length
    · have hget : (padSteps (series.map stepDisplay) dl).getD i "" = "-" := by
        unfold padSteps
        rw [List.getD_append_right _ _ _ _ (by simpa using not_lt.mp hi)]
        have hrep : i - (series.map stepDisplay).length < dl - series.length := by
          simp only [List.length_map]
          rw [hlen] at hip
          omega
        rw [List.getD_eq_getElem _ _ (by simpa using hrep)]
        simp
      rw [if_neg (by rw [hget]; intro hcon; exact hcon.2 rfl)]
      rfl
    · rw [if_neg (fun hcon => hip hcon.1)]
      rfl

theorem parsedEntries_display (series : List StepValue) (dates : List String) :
    parsedEntries (padSteps (series.map stepDisplay) dates.length) dates
      = dates.enum.map
          (fun p => ⟨p.2, codeComparable (series.getD p.1 .Missing)⟩) := by
  unfold parsedEntries
  have hfun :
      (fun p : Nat × String =>
          (⟨p.2,
            if p.1 < (padSteps (series.map stepDisplay) dates.length).length ∧
                (padSteps (series.map stepDisplay) dates.length).getD p.1 "" ≠ "-" then
              parseDisplay ((padSteps (series.map stepDisplay) dates.length).getD p.1 "")
            else 0⟩ : StepRec))
        = (fun p : Nat × String =>
            ⟨p.2, codeComparable (series.getD p.1 .Missing)⟩) :=
    funext fun p => by rw [parsedVal series dates.length p.1]
  rw [hfun]

/-! ## Helper lemmas: the paginated fetch loop on a failure-free server -/

theorem serverResponses_succ {α : Type} (l : List α) (m : Nat) :
    serverResponses l (m + 1)
      = some (l.take 20) :: serverResponses (l.drop 20) m := by
  unfold serverResponses
  rw [List.range_succ_eq_map, List.map_cons, List.map_map]
  have hfun :
      ((fun k => some ((l.drop (20 * k)).take 20)) ∘ Nat.succ)
        = (fun k => some (((l.drop 20).drop (20 * k)).take 20)) := by
    funext k
    simp only [Function.comp_apply, List.drop_drop]
    rw [(by omega : 20 * Nat.succ k = 20 + 20 * k)]
  rw [hfun]
  simp

theorem fetchGo_pages {α : Type} :
    ∀ (m : Nat) (l : List α) (skip : Nat) (acc : List α) (trace : List (Nat × Bool)),
      l.length < 20 * m →
      fetchGo (serverResponses l m) skip 0 acc trace
        = (acc ++ l,
           trace ++ (List.range (l.length / 20 + 1)).map (fun k => (skip + 20 * k, true)),
           true) := by
  intro m
  induction m with
  | zero => intro l skip acc trace h; exact absurd h (by omega)
  | succ m ih =>
    intro l skip acc trace h
    rw [serverResponses_succ]
    by_cases h20 : l.length < 20
    · have htake : l.take 20 = l := List.take_of_length_le (by omega)
      have hdiv : l.length / 20 = 0 := Nat.div_eq_of_lt h20
      have hone : List.map (fun k => (skip + 20 * k, true)) (List.range 1)
          = [(skip, true)] := by
        simp [List.range_succ]
      by_cases h0 : l.length = 0
      · have hl : l = [] := List.length_eq_zero.mp h0
        subst hl
        simp [fetchGo, hone]
      · rw [htake]
        have hrec :
            fetchGo (some l :: serverResponses (l.drop 20) m) skip 0 acc trace
              = (acc ++ l, trace ++ [(skip, true)], true) := by
          simp [fetchGo, h0, h20]
        rw [hrec, hdiv, hone]
    · have htl : (l.take 20).length = 20 := by rw [List.length_take]; omega
      have hrec :
          fetchGo (some (l.take 20) :: serverResponses (l.drop 20) m) skip 0 acc trace
            = fetchGo (serverResponses (l.drop 20) m) (skip + 20) 0 (acc ++ l.take 20)
                (trace ++ [(skip, true)]) := by
        simp [fetchGo, htl]
      rw [hrec]
      rw [ih (l.drop 20) (skip + 20) (acc ++ l.take 20) (trace ++ [(skip, true)])
        (by simp only [List.length_drop]; omega)]
      have htr : ∀ q : Nat,
          [(skip, true)] ++ List.map (fun k => (skip + 20 + 20 * k, true)) (List.range q)
            = List.map (fun k => (skip + 20 * k, true)) (List.range (q + 1)) := by
        intro q
        rw [List.range_succ_eq_map, List.map_cons, List.map_map, List.singleton_append]
        have hfun : (fun k : Nat => (skip + 20 + 20 * k, true))
            = ((fun k : Nat => (skip + 20 * k, true)) ∘ Nat.succ) := by
          funext k
          show (skip + 20 + 20 * k, true) = (skip + 20 * (k + 1), true)
          simp only [Prod.mk.injEq, and_true]
          omega
        rw [hfun]
        simp
      have hq : l.length / 20 + 1 = ((l.drop 20).length / 20 + 1) + 1 := by
        simp only [List.length_drop]
        omega
      rw [hq]
      rw [← htr ((l.drop 20).length / 20 + 1)]
      rw [List.append_assoc acc (l.take 20) (l.drop 20), List.take_append_drop]
      rw [List.append_assoc trace [(skip, true)]]

/-! ## Helper lemmas: aggregation -/

theorem pyMaxAux_ok :
    ∀ (vals : List PyVal) (a h : Nat), pyMaxAux a vals = .ok h →
      (intVals vals).length = vals.length ∧ h = (intVals vals).foldl Nat.max a := by
  intro vals
  induction vals with
  | nil =>
    intro a h hEq
    have ha : a = h := by
      simpa [pyMaxAux] using hEq
    subst ha
    simp [intVals]
  | cons v vs ih =>
    intro a h hEq
    cases v with
    | pyInt n =>
      obtain ⟨hlen, hval⟩ := ih (Nat.max a n) h (by simpa [pyMaxAux] using hEq)
      refine ⟨?_, ?_⟩
      · simp only [intVals, List.filterMap_cons] at hlen ⊢
        simp only [List.length_cons]
        omega
      · simp only [intVals, List.filterMap_cons] at hval ⊢
        simpa [List.foldl_cons] using hval
    | pyNone => exact absurd hEq (by simp [pyMaxAux])
    | pyStr s => exact absurd hEq (by simp [pyMaxAux])

theorem processPlayer_highest {p : Player} {e : AggEntry}
    (h : processPlayer p = .ok e) : pyMaxNat (rawVals p) = .ok e.highest_steps := by
  unfold processPlayer at h
  cases hfs : (rawVals p).mapM format_steps with
  | error er => rw [hfs] at h; exact absurd h (by simp)
  | ok fs =>
    rw [hfs] at h
    cases htc : totalCompleted (rawVals p) with
    | error er => rw [htc] at h; exact absurd h (by simp)
    | ok tc =>
      rw [htc] at h
      cases hhs : pyMaxNat (rawVals p) with
      | error er => rw [hhs] at h; exact absurd h (by simp)
      | ok hs =>
        rw [hhs] at h
        simp only [Except.ok.injEq] at h
        rw [← h]

theorem nodup_keys_dictInsert (d : List (String × AggEntry)) (k : String) (v : AggEntry)
    (h : (d.map Prod.fst).Nodup) : ((dictInsert d k v).map Prod.fst).Nodup := by
  unfold dictInsert
  by_cases hany : d.any (fun q => q.1 == k)
  · rw [if_pos hany, List.map_map]
    have hcomp : (Prod.fst ∘ fun q : String × AggEntry => if q.1 == k then (k, v) else q)
        = Prod.fst := by
      funext q
      by_cases hq : q.1 = k
      · simp [hq]
      · simp [hq]
    rw [hcomp]
    exact h
  · rw [if_neg hany, List.map_append]
    rw [List.nodup_append]
    refine ⟨h, by simp, ?_⟩
    intro a ha hk
    have hak : a = k := by simpa using hk
    subst hak
    obtain ⟨q, hq, hfst⟩ := List.mem_map.mp ha
    exact hany (List.any_eq_true.mpr ⟨q, hq, beq_iff_eq.mpr hfst⟩)

theorem nodup_processFold :
    ∀ (ps : List Player) (acc : List (String × AggEntry)),
      (acc.map Prod.fst).Nodup → ((ps.foldl processStep acc).map Prod.fst).Nodup := by
  intro ps
  induction ps with
  | nil => intro acc h; simpa using h
  | cons p ps ih =>
    intro acc h
    rw [List.foldl_cons]
    apply ih
    unfold processStep
    by_cases hu : usernameOf p = ""
    · rw [if_pos hu]; exact h
    · rw [if_neg hu]
      split
      · exact nodup_keys_dictInsert acc (usernameOf p) _ h
      · exact h

/-! ## Claim C1 -/

/-- Claim C1 as stated is false: with stepTarget 40000 and a Capped day,
the claimed comparable count 30000 would make the day incomplete (status
Failed(0/1)), but the code evaluates the day as completed (Complete),
because the replace-based conversion parses the marker to 3030000. -/
theorem claim_c1_counterexample :
    displayCompletion [stepDisplay .Capped] ["2024-01-01"] 40000 "2024-01-01" = "Complete"
      ∧ specComparable .Capped < 40000
      ∧ check_task_completion [⟨"2024-01-01", specComparable .Capped⟩] 40000 "2024-01-01"
          = "Failed(0/1)" := by
  refine ⟨by decide, by decide, by decide⟩

/-- Claim C1 (amended): for every series of step values, stepTarget and
evaluation date, the completion evaluation performed by display_results
counts a day as completed exactly when its comparable step count meets
the target, where the comparable count is n for Numeric(n), 0 for
Missing, and 3030000 for Capped — the integer the replace-based
conversion actually produces from the display marker (not the cap
threshold 30000). -/
theorem claim_c1_capped_comparable (series : List StepValue) (game_dates : List String)
    (step_target : Nat) (current_date : String) :
    displayCompletion (series.map stepDisplay) game_dates step_target current_date
      = check_task_completion
          (game_dates.enum.map
            (fun p => ⟨p.2, codeComparable (series.getD p.1 .Missing)⟩))
          step_target current_date := by
  unfold displayCompletion
  rw [parsedEntries_display]

/-! ## Claim C2 -/

/-- Claim C2 as stated is false: a non-numeric string value without the
overflow marker (here "abc") does not normalize to Missing; it raises a
TypeError in `format_steps` (the str-vs-int comparison). -/
theorem claim_c2_counterexample :
    format_steps (.pyStr "abc") = .error ()
      ∧ ¬format_steps (.pyStr "abc") = .ok "-" := by
  refine ⟨rfl, fun hcon => ?_⟩
  have h0 : format_steps (.pyStr "abc") = Except.error () := rfl
  rw [h0] at hcon
  exact Except.noConfusion hcon

/-- Claim C2 (amended): normalization maps a numeric count n with
0 < n < 30000 to Numeric (the comma-formatted numeral), n ≥ 30000 to
Capped ('30k+'), a pre-formatted marker string to Capped (returned
unchanged), and an absent, zero, or None/NaN value to Missing ('-');
however a non-numeric string without the marker raises a TypeError
(so the enclosing record is skipped) instead of mapping to Missing. -/
theorem claim_c2_normalization :
    (∀ n : Nat, 0 < n → n < 30000 → format_steps (.pyInt n) = .ok (commaFmt n))
      ∧ (∀ n : Nat, 30000 ≤ n → format_steps (.pyInt n) = .ok "30k+")
      ∧ (∀ s : String, hasKPlus s = true → format_steps (.pyStr s) = .ok s)
      ∧ format_steps ((none : Option PyVal).getD (.pyInt 0)) = .ok "-"
      ∧ format_steps .pyNone = .ok "-"
      ∧ (∀ s : String, hasKPlus s = false → format_steps (.pyStr s) = .error ()) := by
  refine ⟨?_, ?_, ?_, rfl, rfl, ?_⟩
  · intro n h1 h2
    simp only [format_steps]
    rw [if_neg (by omega), if_neg (by omega)]
  · intro n h
    simp only [format_steps]
    rw [if_neg (by omega), if_pos h]
  · intro s h
    simp only [format_steps]
    rw [if_pos h]
  · intro s h
    simp only [format_steps]
    rw [if_neg (by simp [h])]

/-- Witness for C2 (amended), at concrete inputs. -/
theorem claim_c2_witness :
    format_steps (.pyInt 123) = .ok (commaFmt 123)
      ∧ format_steps (.pyInt 30000) = .ok "30k+"
      ∧ format_steps (.pyStr "30k+") = .ok "30k+"
      ∧ format_steps (.pyStr "oops") = .error () :=
  ⟨claim_c2_normalization.1 123 (by decide) (by decide),
   claim_c2_normalization.2.1 30000 (by decide),
   claim_c2_normalization.2.2.1 "30k+" (by decide),
   claim_c2_normalization.2.2.2.2.2 "oops" (by decide)⟩

/-! ## Claim C3 -/

/-- Claim C3 as stated is false: a raw numeric value of 35000 normalizes
to Capped, so per the claim it should be ignored for highest_steps
(leaving 0), but the code records highest_steps = 35000. -/
theorem claim_c3_counterexample :
    process_player_data [cappedPlayer] = [("alice", ⟨["30k+"], 1, 35000⟩)]
      ∧ specHighest (rawVals cappedPlayer) = 0
      ∧ (35000 : Nat) ≠ 0 := by
  refine ⟨by decide, by decide, by decide⟩

/-- Claim C3 (amended): for every player record that aggregates
successfully, all its effective raw step values are numeric (absent
values defaulting to 0), and highest_steps is the maximum over all of
them — including capped-range values ≥ 30000, which are not ignored —
with 0 for an empty series. -/
theorem claim_c3_highest_steps (p : Player) (e : AggEntry)
    (h : processPlayer p = .ok e) :
    (intVals (rawVals p)).length = (rawVals p).length
      ∧ e.highest_steps = (intVals (rawVals p)).foldl Nat.max 0 := by
  have hmax := processPlayer_highest h
  exact pyMaxAux_ok (rawVals p) 0 e.highest_steps hmax

/-- Witness for C3 (amended): the capped player aggregates successfully
and its highest_steps is the fold of its numeric values. -/
theorem claim_c3_witness :
    (intVals (rawVals cappedPlayer)).length = (rawVals cappedPlayer).length
      ∧ (⟨["30k+"], 1, 35000⟩ : AggEntry).highest_steps
          = (intVals (rawVals cappedPlayer)).foldl Nat.max 0 :=
  claim_c3_highest_steps cappedPlayer ⟨["30k+"], 1, 35000⟩ rfl

/-! ## Claim C4 -/

/-- Claim C4 as stated is false for N a multiple of the page size: with
N = 20 players the loop issues 2 successful page requests (the second
returns the empty page that reveals the end), not ceil(20/20) = 1. -/
theorem claim_c4_counterexample :
    ((get_all_game_data (serverResponses (List.range 20) 2)).2.1.filter
        (fun q => q.2)).length = 2
      ∧ (20 + 20 - 1) / 20 = 1
      ∧ (2 : Nat) ≠ 1 := by
  refine ⟨by decide, by decide, by decide⟩

/-- Claim C4 (amended): for a campaign with N total players served in
pages of 20, the failure-free fetch loop returns all N players and
issues exactly N / 20 + 1 successful page requests at offsets 0, 20, …
(this equals ceil(N/20) when 20 does not divide N, and is one more — the
trailing short/empty page — when it does), then stops with no further
request. -/
theorem claim_c4_pagination {α : Type} (l : List α) (m : Nat) (h : l.length < 20 * m) :
    get_all_game_data (serverResponses l m)
        = (l, (List.range (l.length / 20 + 1)).map (fun k => (20 * k, true)), true)
      ∧ ((get_all_game_data (serverResponses l m)).2.1.filter (fun q => q.2)).length
          = l.length / 20 + 1 := by
  have hmain : get_all_game_data (serverResponses l m)
      = (l, (List.range (l.length / 20 + 1)).map (fun k => (20 * k, true)), true) := by
    unfold get_all_game_data
    rw [fetchGo_pages m l 0 [] [] h]
    simp only [List.nil_append, Prod.mk.injEq, true_and, and_true]
    have hfun : (fun k : Nat => (0 + 20 * k, true)) = (fun k : Nat => (20 * k, true)) := by
      funext k
      simp
    rw [hfun]
  refine ⟨hmain, ?_⟩
  rw [hmain]
  simp [List.filter_map, Function.comp_def]

/-- Witness for C4 (amended) at N = 45, pages 20+20+5. -/
theorem claim_c4_witness :
    get_all_game_data (serverResponses (List.range 45) 3)
        = (List.range 45,
           (List.range ((List.range 45).length / 20 + 1)).map (fun k => (20 * k, true)),
           true)
      ∧ ((get_all_game_data (serverResponses (List.range 45) 3)).2.1.filter
          (fun q => q.2)).length = (List.range 45).length / 20 + 1 :=
  claim_c4_pagination (List.range 45) 3 (by decide)

/-! ## Claim C5 -/

/-- Claim C5: requiredDays = 0 gives NotYetDue ('-') regardless of the
series; otherwise completedDays = requiredDays gives Complete, and any
other case gives Partial(completedDays, requiredDays), rendered
'Failed(c/r)'. -/
theorem claim_c5_status_branches (steps_data : List StepRec) (step_target : Nat)
    (current_date : String) :
    (requiredDays steps_data current_date = 0 →
        check_task_completion steps_data step_target current_date
          = statusString .NotYetDue)
      ∧ (requiredDays steps_data current_date ≠ 0 →
          completedDays steps_data step_target current_date
              = requiredDays steps_data current_date →
          check_task_completion steps_data step_target current_date
            = statusString .Complete)
      ∧ (requiredDays steps_data current_date ≠ 0 →
          completedDays steps_data step_target current_date
              ≠ requiredDays steps_data current_date →
          check_task_completion steps_data step_target current_date
            = statusString
                (.Incomplete (completedDays steps_data step_target current_date)
                  (requiredDays steps_data current_date))) := by
  refine ⟨?_, ?_, ?_⟩
  · intro h
    unfold check_task_completion
    rw [checkLoop_eq]
    simp [h, statusString]
  · intro h1 h2
    unfold check_task_completion
    rw [checkLoop_eq]
    simp [h1, h2, statusString]
  · intro h1 h2
    unfold check_task_completion
    rw [checkLoop_eq]
    simp [h1, h2, statusString]

/-- Witness for C5: one concrete instance of each branch. -/
theorem claim_c5_witness :
    check_task_completion [] 5 "2024-01-01" = "-"
      ∧ check_task_completion [⟨"2024-01-01", 7⟩] 5 "2024-01-01" = "Complete"
      ∧ check_task_completion [⟨"2024-01-01", 3⟩] 5 "2024-01-01" = "Failed(0/1)" :=
  ⟨(claim_c5_status_branches [] 5 "2024-01-01").1 (by decide),
   (claim_c5_status_branches [⟨"2024-01-01", 7⟩] 5 "2024-01-01").2.1 (by decide)
     (by decide),
   (claim_c5_status_branches [⟨"2024-01-01", 3⟩] 5 "2024-01-01").2.2 (by decide)
     (by decide)⟩

/-! ## Claim C6 -/

/-- Claim C6: whenever the evaluation returns Partial(c, r) (rendered
'Failed(c/r)'), the invariant c < r holds. -/
theorem claim_c6_partial_invariant (steps_data : List StepRec) (step_target : Nat)
    (current_date : String) (c r : Nat)
    (h : statusView steps_data step_target current_date = .Incomplete c r) :
    check_task_completion steps_data step_target current_date
        = statusString (.Incomplete c r) ∧ c < r := by
  have hview := h
  unfold statusView at hview
  rw [checkLoop_eq] at hview
  by_cases h0 : requiredDays steps_data current_date = 0
  · simp [h0] at hview
  · by_cases h1 : completedDays steps_data step_target current_date
        = requiredDays steps_data current_date
    · simp [h0, h1] at hview
    · simp only [h0, if_false, h1, CompletionStatus.Incomplete.injEq] at hview
      obtain ⟨hc, hr⟩ := hview
      refine ⟨by rw [check_eq_statusView, h], ?_⟩
      have hle := completed_le_required steps_data step_target current_date
      omega

/-- Witness for C6: a concrete Partial(0, 1) evaluation. -/
theorem claim_c6_witness :
    check_task_completion [⟨"2024-01-01", 0⟩] 1 "2024-01-01"
        = statusString (.Incomplete 0 1) ∧ 0 < 1 :=
  claim_c6_partial_invariant [⟨"2024-01-01", 0⟩] 1 "2024-01-01" 0 1 (by decide)

/-! ## Claim C7 -/

/-- Claim C7: a failed page fetch with fewer than 3 retries used is
retried at the same offset with the counter incremented; the fourth
consecutive failure (counter at maxRetries = 3) halts the loop and
returns everything accumulated so far; a successful full page resets
the retry counter to zero for the next offset. -/
theorem claim_c7_retry_policy {α : Type} (rs : List (Option (List α))) (skip r : Nat)
    (acc : List α) (trace : List (Nat × Bool)) :
    (r < 3 →
        fetchGo (none :: rs) skip r acc trace
          = fetchGo rs skip (r + 1) acc (trace ++ [(skip, false)]))
      ∧ (3 ≤ r →
          fetchGo (none :: rs) skip r acc trace = (acc, trace ++ [(skip, false)], true))
      ∧ (∀ ps : List α, ps.length = 20 →
          fetchGo (some ps :: rs) skip r acc trace
            = fetchGo rs (skip + 20) 0 (acc ++ ps) (trace ++ [(skip, true)])) := by
  refine ⟨?_, ?_, ?_⟩
  · intro h
    simp [fetchGo, h]
  · intro h
    simp [fetchGo, Nat.not_lt.mpr h]
  · intro ps hps
    simp [fetchGo, hps]

/-- Witness for C7: the spec's retry scenario at offset 40. -/
theorem claim_c7_witness :
    (fetchGo [none] 40 2 ([] : List Nat) [] = fetchGo [] 40 3 [] [(40, false)])
      ∧ (fetchGo [none] 40 3 ([3] : List Nat) [] = ([3], [(40, false)], true))
      ∧ (fetchGo [some (List.range 20)] 40 1 ([] : List Nat) []
          = fetchGo [] 60 0 (List.range 20) [(40, true)]) :=
  ⟨(claim_c7_retry_policy [] 40 2 [] []).1 (by decide),
   (claim_c7_retry_policy [] 40 3 [3] []).2.1 (by decide),
   (claim_c7_retry_policy [] 40 1 [] []).2.2 (List.range 20) (by decide)⟩

/-! ## Claim C8 -/

set_option maxRecDepth 8000 in
/-- Claim C8: a record with an absent or empty username is skipped
without aborting the batch; the aggregated output has one entry per
valid username (no duplicate keys); and for the concrete batch of 100
records whose 57th record has no username, the output has 99 entries. -/
theorem claim_c8_aggregation_skip :
    (∀ (xs ys : List Player) (p : Player), usernameOf p = "" →
        process_player_data (xs ++ p :: ys) = process_player_data (xs ++ ys))
      ∧ (∀ ps : List Player, ((process_player_data ps).map Prod.fst).Nodup)
      ∧ (process_player_data batch100).length = 99 := by
  refine ⟨?_, ?_, by decide⟩
  · intro xs ys p hp
    unfold process_player_data
    rw [List.foldl_append, List.foldl_append, List.foldl_cons]
    have hstep : processStep (xs.foldl processStep []) p = xs.foldl processStep [] := by
      unfold processStep
      rw [if_pos hp]
    rw [hstep]
  · intro ps
    exact nodup_processFold ps [] (by simp)

/-- Witness for C8: skipping the username-less record in a concrete
3-record batch, via the theorem. -/
theorem claim_c8_witness :
    process_player_data [mkPlayer 0, mkPlayer 56, mkPlayer 1]
        = process_player_data [mkPlayer 0, mkPlayer 1] :=
  claim_c8_aggregation_skip.1 [mkPlayer 0] [mkPlayer 1] (mkPlayer 56) (by decide)

/-! ## Claim C9 -/

/-- Claim C9 as stated is false on the exit status: with an empty roster
the run aborts with a message and exports nothing, but `main` plain-
returns, so the process exit status is 0, not non-zero. -/
theorem claim_c9_counterexample :
    mainRun envEmptyRoster
        = ⟨0, false, ["Failed to read user information from CSV file"]⟩
      ∧ ¬(mainRun envEmptyRoster).exitCode ≠ 0 := by
  refine ⟨by decide, by decide⟩

/-- Claim C9 (amended): on any missing required input (empty roster,
unreachable campaign overview, failed initial page, or no campaign days
on the first page) the run aborts with a user-facing message and nothing
is exported — but the exit status is 0 (only the argument-count check
exits non-zero). -/
theorem claim_c9_abort_behavior (env : MainEnv) (hargv : env.argv.length = 2)
    (h : env.roster = [] ∨ env.overview = none ∨ env.initialData = none
        ∨ (∃ l, env.initialData = some l ∧ gameDatesOf l = [])) :
    (mainRun env).exported = false ∧ (mainRun env).messages ≠ []
      ∧ (mainRun env).exitCode = 0 := by
  rcases h with h | h | h | ⟨l, hl, hd⟩
  · simp [mainRun, hargv, h]
  · by_cases hr : env.roster.isEmpty
    · simp [mainRun, hargv, hr]
    · simp [mainRun, hargv, hr, h]
  · by_cases hr : env.roster.isEmpty
    · simp [mainRun, hargv, hr]
    · cases hov : env.overview with
      | none => simp [mainRun, hargv, hr, hov]
      | some gi => simp [mainRun, hargv, hr, hov, h]
  · by_cases hr : env.roster.isEmpty
    · simp [mainRun, hargv, hr]
    · cases hov : env.overview with
      | none => simp [mainRun, hargv, hr, hov]
      | some gi => simp [mainRun, hargv, hr, hov, hl, hd]

/-- Witness for C9 (amended): the empty-roster environment. -/
theorem claim_c9_witness :
    (mainRun envEmptyRoster).exported = false
      ∧ (mainRun envEmptyRoster).messages ≠ []
      ∧ (mainRun envEmptyRoster).exitCode = 0 :=
  claim_c9_abort_behavior envEmptyRoster (by decide) (Or.inl (by decide))

/-! ## Claim C10 -/

/-- Claim C10: for 0 < n < 30000, `format_steps` renders n as the
comma-formatted numeral, and the replace-based parse in display_results
recovers exactly n — the display round trip is lossless on the Numeric
range. -/
theorem claim_c10_round_trip (n : Nat) (h1 : 0 < n) (h2 : n < 30000) :
    format_steps (.pyInt n) = .ok (commaFmt n) ∧ parseDisplay (commaFmt n) = n := by
  constructor
  · simp only [format_steps]
    rw [if_neg (by omega), if_neg (by omega)]
  · exact parseDisplay_commaFmt n

/-- Witness for C10 at n = 12345. -/
theorem claim_c10_witness :
    0 < 12345 ∧ 12345 < 30000
      ∧ (format_steps (.pyInt 12345) = .ok (commaFmt 12345)
        ∧ parseDisplay (commaFmt 12345) = 12345) :=
  ⟨by decide, by decide, claim_c10_round_trip 12345 (by decide) (by decide)⟩

end Moonwalk
